import Mathlib

/-!
Shallow embedding of `plot_results.py`, a results-visualization script that
reads CSV files of task-scheduling results and renders bar charts comparing
response-time statistics across named scheduling algorithms.

Numeric CSV values are modelled as rationals; a pandas `NaN` statistic
(the quantile of an empty series) is modelled as `Option.none`.
Python's `sorted(...)` (a stable ascending sort) is modelled by insertion
sort, which is likewise stable and ascending.
-/

attribute [local semireducible] Rat.mul Rat.add Rat.sub Rat.inv Rat.ofScientific

namespace PlotResults

/-- One CSV data row: `response_time_ms` and `duration_ms` columns. -/
structure Row where
  response_time_ms : ℚ
  duration_ms : ℚ
deriving DecidableEq, Repr

/-- Split a character list at every occurrence of `sep` (as Python
`str.split`). -/
def splitOnChar (sep : Char) : List Char → List (List Char)
  | [] => [[]]
  | c :: rest =>
    let r := splitOnChar sep rest
    if c = sep then [] :: r
    else
      match r with
      | [] => [[c]]
      | h :: t => (c :: h) :: t

/-- The final path component, as `pathlib.Path(...).name` computes it
(trailing and repeated separators are dropped by path normalization). -/
def pathName (filename : String) : String :=
  String.mk (((splitOnChar '/' filename.data).filter (fun s => s ≠ [])).getLastD [])

/-- Index of the last occurrence of `c` in `cs` (Python `str.rfind`). -/
def lastIdxOf (cs : List Char) (c : Char) : Option Nat :=
  ((List.range cs.length).filter (fun i => cs.getD i ' ' = c)).getLast?

/-- The stem of a path, as `pathlib.Path(...).stem` computes it: the final
component with its suffix removed, where the suffix starts at the last dot
provided that dot is neither the first nor the last character. -/
def pathStem (filename : String) : String :=
  let nm := pathName filename
  let cs := nm.data
  match lastIdxOf cs '.' with
  | some i => if 0 < i ∧ i < cs.length - 1 then String.mk (cs.take i) else nm
  | none => nm

/-- The function `extract_algorithm_name` from `plot_results.py`: match the stem against the
regex `^([^_]+)_results_` and upper-case the captured group, falling back to
the raw stem when the regex does not match.  Since `[^_]+` cannot cross an
underscore and the literal part starts with one, the regex matches exactly
when the run of non-underscore characters at the start of the stem is
non-empty and is immediately followed by `_results_`. -/
def extract_algorithm_name (filename : String) : String :=
  let stem := pathStem filename
  let cs := stem.data
  let pre := cs.takeWhile (fun c => c ≠ '_')
  let rest := cs.drop pre.length
  if pre ≠ [] ∧ List.isPrefixOf "_results_".data rest then
    String.mk (pre.map Char.toUpper)
  else stem

/-- Ascending sort of a list of rationals (`numpy` sorts the series before
interpolating quantiles). -/
def sortedRats (xs : List ℚ) : List ℚ :=
  List.insertionSort (fun a b => a ≤ b) xs

/-- Linear-interpolation quantile of an already sorted non-empty list, the
`interpolation='linear'` scheme used by `pandas.Series.quantile`: with
`h = (n-1)*q`, `i = floor h` and `g = h - i`, the result is
`s[i] + g * (s[i+1] - s[i])` (the upper index clamped to the last element). -/
def quantileOfSorted (s : List ℚ) (q : ℚ) : ℚ :=
  let n := s.length
  let h : ℚ := ((n : ℚ) - 1) * q
  let i : ℕ := ⌊h⌋.toNat
  let g : ℚ := h - (i : ℚ)
  let xi := s.getD i 0
  let xi1 := s.getD (i + 1) xi
  xi + g * (xi1 - xi)

/-- Model of `pandas.Series.quantile` on a series of rationals: `NaN` (modelled as
`none`) on an empty series, otherwise the linear-interpolation quantile. -/
def seriesQuantile (xs : List ℚ) (q : ℚ) : Option ℚ :=
  if xs = [] then none else some (quantileOfSorted (sortedRats xs) q)

/-- The dictionary returned by `calculate_percentiles`. -/
structure Percentiles where
  median : Option ℚ
  p90 : Option ℚ
  p99 : Option ℚ
deriving DecidableEq, Repr

/-- The function `calculate_percentiles` from `plot_results.py`. -/
def calculate_percentiles (xs : List ℚ) : Percentiles :=
  { median := seriesQuantile xs (1 / 2)
    p90 := seriesQuantile xs (9 / 10)
    p99 := seriesQuantile xs (99 / 100) }

/-- The list `sorted(df['duration_ms'].unique())` from `identify_task_types`: the
distinct duration values in ascending order. -/
def unique_durations (df : List Row) : List ℚ :=
  List.insertionSort (fun a b => a ≤ b) ((df.map (fun r => r.duration_ms)).dedup)

/-- The function `identify_task_types` from `plot_results.py`.  Returns the pair
(short tasks, long tasks); Python `None` is modelled as `none` and an empty
`DataFrame` as `some []`.  `min`/`max` of the sorted unique list are its
first/last elements. -/
def identify_task_types (df : List Row) : Option (List Row) × Option (List Row) :=
  let ud := unique_durations df
  if 2 ≤ ud.length then
    let short_duration := ud.getD 0 0
    let long_duration := ud.getLastD 0
    (some (df.filter (fun r => decide (r.duration_ms = short_duration))),
     some (df.filter (fun r => decide (r.duration_ms = long_duration))))
  else if ud.length = 1 then
    let short_duration := ud.getD 0 0
    (some (df.filter (fun r => decide (r.duration_ms = short_duration))), some [])
  else (none, none)

/-- One element of the `results` list built by `plot_response_time_comparison`. -/
structure AlgoResult where
  algorithm : String
  all : Percentiles
  short : Option Percentiles
  long : Option Percentiles
  file : String
deriving DecidableEq, Repr

/-- The per-file body of the loop in `plot_response_time_comparison`: build one
`results` entry from a CSV file's parsed rows. -/
def mkResult (csv_file : String) (df : List Row) : AlgoResult :=
  let algo_name := extract_algorithm_name csv_file
  let all_stats := calculate_percentiles (df.map (fun r => r.response_time_ms))
  let tt := identify_task_types df
  let short_stats : Option Percentiles :=
    match tt.1 with
    | some st =>
        if 0 < st.length then
          some (calculate_percentiles (st.map (fun r => r.response_time_ms)))
        else none
    | none => none
  let long_stats : Option Percentiles :=
    match tt.2 with
    | some lt' =>
        if 0 < lt'.length then
          some (calculate_percentiles (lt'.map (fun r => r.response_time_ms)))
        else none
    | none => none
  { algorithm := algo_name, all := all_stats, short := short_stats,
    long := long_stats, file := csv_file }

/-- The filesystem as seen by the script: a path either resolves to parsed CSV
rows or does not exist. -/
def FileSystem := String → Option (List Row)

/-- The file loop of `plot_response_time_comparison`: walk the argument paths
in order, collecting a warning for each missing path and a `results` entry for
each existing one. -/
def scanFiles (fs : FileSystem) : List String → List String × List AlgoResult
  | [] => ([], [])
  | csv_file :: rest =>
    let acc := scanFiles fs rest
    match fs csv_file with
    | none => (csv_file :: acc.1, acc.2)
    | some df => (acc.1, mkResult csv_file df :: acc.2)

/-- Lexicographic (code-point) order on character lists, the order Python
string comparison uses. -/
def lexLe : List Char → List Char → Bool
  | [], _ => true
  | _ :: _, [] => false
  | a :: as, b :: bs => if a = b then lexLe as bs else decide (a < b)

/-- Comparison key of `sorted(results, key=lambda x: x['algorithm'])`. -/
def algoLe (a b : AlgoResult) : Prop :=
  lexLe a.algorithm.data b.algorithm.data = true

instance : DecidableRel algoLe := fun a b =>
  instDecidableEqBool (lexLe a.algorithm.data b.algorithm.data) true

/-- The sort `results = sorted(results, key=lambda x: x['algorithm'])`: stable
ascending sort by the derived algorithm name under lexicographic
(code-point) string order, which is what Python string comparison performs. -/
def sortResults (results : List AlgoResult) : List AlgoResult :=
  List.insertionSort algoLe results

/-- Observable outcome of a run: exit with status 1 after the usage message,
exit with status 1 after the no-valid-files error message, or fall through
normally after saving the chart and printing the summary for the given sorted
result list. -/
inductive Outcome where
  | usageExit1
  | noValidFilesExit1
  | success (sortedResults : List AlgoResult)
deriving DecidableEq, Repr

/-- The function `plot_response_time_comparison` from `plot_results.py`, abstracted to its
control flow: exit 1 when no file loaded, otherwise proceed with the sorted
results through chart rendering and the console summary. -/
def plot_response_time_comparison (fs : FileSystem) (csv_files : List String) :
    Outcome :=
  let results := (scanFiles fs csv_files).2
  if results = [] then Outcome.noValidFilesExit1
  else Outcome.success (sortResults results)

/-- The function `main` from `plot_results.py`: usage message and exit 1 when no CSV path
argument is supplied (`len(sys.argv) < 2`), otherwise run the pipeline. -/
def main (fs : FileSystem) (args : List String) : Outcome :=
  if args.length < 1 then Outcome.usageExit1
  else plot_response_time_comparison fs args

/-- Process exit status of an outcome. -/
def exitCode : Outcome → Nat
  | Outcome.usageExit1 => 1
  | Outcome.noValidFilesExit1 => 1
  | Outcome.success _ => 0

/-- One printed cell of the console summary table: a numeric value (possibly
pandas `NaN`, modelled as `none`) or the `N/A` placeholder. -/
inductive Cell where
  | value (x : Option ℚ)
  | na
deriving DecidableEq, Repr

/-- A summary-table cell for an optional statistics set: the printed number
when the set is present, `N/A` otherwise (`if result['short']: ... else
print 'N/A'`). -/
def summaryCell (s : Option Percentiles) (f : Percentiles → Option ℚ) : Cell :=
  match s with
  | some st => Cell.value (f st)
  | none => Cell.na

/-- The `All Tasks` column of the summary table is printed unconditionally
(`result['all']['median']` and friends, with no guard). -/
def summaryCellAll (r : AlgoResult) (f : Percentiles → Option ℚ) : Cell :=
  Cell.value (f r.all)

/-- Chart bar height for an optional statistics set
(`r['short']['median'] if r['short'] else 0`): the presentation fallback 0 is
substituted here, at drawing time only. -/
def chartValue (s : Option Percentiles) (f : Percentiles → Option ℚ) : Option ℚ :=
  match s with
  | some st => f st
  | none => some 0

/-- The list `algorithms = [r['algorithm'] for r in results]`: the chart's bar-group
labels, in the order the groups are drawn. -/
def algorithms (results : List AlgoResult) : List String :=
  results.map (fun r => r.algorithm)

/-- The console summary prints one block per result, walking `results` in
list order; this is the sequence of algorithm names it prints. -/
def summaryOrder (results : List AlgoResult) : List String :=
  results.map (fun r => r.algorithm)

/-- Case-insensitive comparison key (lower-casing), used only to state the
spec's claimed case-insensitive ordering. -/
def ciKey (s : String) : List Char :=
  s.data.map Char.toLower

/-- Modelled from the spec claim wording for C1 only: the label is the
upper-cased prefix before the first `_results_` token of the stem, or the raw
stem when that token is absent (with no restriction on underscores inside the
prefix). -/
def claimedLabel (filename : String) : String :=
  let stem := pathStem filename
  let cs := stem.data
  match ((List.range (cs.length + 1)).filter
      (fun i => List.isPrefixOf "_results_".data (cs.drop i))).head? with
  | some i => String.mk ((cs.take i).map Char.toUpper)
  | none => stem

/-- Modelled from the spec: the basic (mean) variant script of this
repository is not under `src/`; per the spec it computes the arithmetic mean
of `response_time_ms` per file. -/
def meanResponseTime (xs : List ℚ) : Option ℚ :=
  if xs = [] then none else some (xs.sum / (xs.length : ℚ))

/-- One algorithm's entry in the basic (mean) variant: derived name and mean
response time. -/
structure MeanResult where
  algorithm : String
  meanRt : ℚ
deriving DecidableEq, Repr

/-- Modelled from the spec: the basic variant's per-file entry, using the
shared filename convention. -/
def mkMeanResult (csv_file : String) (df : List Row) : Option MeanResult :=
  (meanResponseTime (df.map (fun r => r.response_time_ms))).map
    (fun m => { algorithm := extract_algorithm_name csv_file, meanRt := m })

/-- Modelled from the spec: the basic variant identifies the algorithm with
the minimum mean response time as best. -/
def best_algorithm (rs : List MeanResult) : Option MeanResult :=
  rs.argmin (fun r => r.meanRt)

/-- Modelled from the spec: the basic variant identifies the algorithm with
the maximum mean response time as worst. -/
def worst_algorithm (rs : List MeanResult) : Option MeanResult :=
  rs.argmax (fun r => r.meanRt)

/-- Modelled from the spec: the printed percentage reduction from the worst
to the best mean response time. -/
def improvementPct (best worst : ℚ) : ℚ :=
  (worst - best) / worst * 100

/-- The two-file scenario of the spec: `sjf_results_1.csv` with mean 15.0 and
`fifo_results_1.csv` with mean 25.0. -/
def sjfFifoScenario : List MeanResult :=
  List.filterMap (fun pr => mkMeanResult pr.1 pr.2)
    [("sjf_results_1.csv", [(⟨10, 1⟩ : Row), ⟨20, 1⟩]),
     ("fifo_results_1.csv", [(⟨20, 1⟩ : Row), ⟨30, 1⟩])]

theorem scanFiles_fst (fs : FileSystem) (files : List String) :
    (scanFiles fs files).1 = files.filter (fun p => (fs p).isNone) := by
  induction files with
  | nil => rfl
  | cons f rest ih =>
    cases hf : fs f <;> simp [scanFiles, hf, ih, List.filter_cons]

theorem scanFiles_snd (fs : FileSystem) (files : List String) :
    (scanFiles fs files).2 = files.filterMap (fun p => (fs p).map (mkResult p)) := by
  induction files with
  | nil => rfl
  | cons f rest ih =>
    cases hf : fs f <;> simp [scanFiles, hf, ih, List.filterMap_cons]

theorem results_eq_nil_iff (fs : FileSystem) (args : List String) :
    (scanFiles fs args).2 = [] ↔ ∀ p ∈ args, fs p = none := by
  rw [scanFiles_snd]
  simp [List.filterMap_eq_nil_iff, Option.map_eq_none']

/-- C4: the process exits with status 1 (after a usage or error message) iff
no path argument is given or no supplied path resolves to an existing file;
in every other case it exits with status 0 after producing the chart and
summary (`Outcome.success`). -/
theorem exit_status_iff (fs : FileSystem) (args : List String) :
    (exitCode (main fs args) = 1 ↔ (args = [] ∨ ∀ p ∈ args, fs p = none)) ∧
    (exitCode (main fs args) = 0 ↔ ∃ rs, main fs args = Outcome.success rs) ∧
    (args = [] → main fs args = Outcome.usageExit1) ∧
    (args ≠ [] → (∀ p ∈ args, fs p = none) →
      main fs args = Outcome.noValidFilesExit1) := by
  by_cases hargs : args = []
  · subst hargs
    refine ⟨⟨fun _ => Or.inl rfl, fun _ => rfl⟩, ⟨?_, ?_⟩, fun _ => rfl, ?_⟩
    · intro h; simp [main, exitCode] at h
    · rintro ⟨rs, h⟩; simp [main] at h
    · intro h; exact absurd rfl h
  · have hlen : ¬ args.length < 1 := by
      cases args with
      | nil => exact absurd rfl hargs
      | cons a t => simp
    have hmain : main fs args = plot_response_time_comparison fs args := by
      simp [main, hlen]
    by_cases hres : (scanFiles fs args).2 = []
    · have hout : main fs args = Outcome.noValidFilesExit1 := by
        rw [hmain]; simp [plot_response_time_comparison, hres]
      refine ⟨⟨fun _ => Or.inr ((results_eq_nil_iff fs args).mp hres), fun _ => by
        rw [hout]; rfl⟩, ⟨?_, ?_⟩, fun h => absurd h hargs, fun _ _ => hout⟩
      · intro h; rw [hout] at h; simp [exitCode] at h
      · rintro ⟨rs, h⟩; rw [hout] at h; exact absurd h (by simp)
    · have hout : main fs args =
          Outcome.success (sortResults (scanFiles fs args).2) := by
        rw [hmain]; simp [plot_response_time_comparison, hres]
      refine ⟨⟨?_, ?_⟩, ⟨fun _ => ⟨_, hout⟩, fun _ => by rw [hout]; rfl⟩,
        fun h => absurd h hargs, fun _ hall => ?_⟩
      · intro h; rw [hout] at h; simp [exitCode] at h
      · rintro (h | h)
        · exact absurd h hargs
        · exact absurd ((results_eq_nil_iff fs args).mpr h) hres
      · exact absurd ((results_eq_nil_iff fs args).mpr hall) hres

/-- Witness for C4 at a concrete input: with no arguments the exit status
is 1. -/
theorem exit_status_iff_witness :
    exitCode (main (fun _ => none) []) = 1 :=
  (exit_status_iff (fun _ => none) []).1.mpr (Or.inl rfl)

/-- C5: every missing path produces a warning and is excluded (the warning
list is exactly the missing paths, the result list is built from exactly the
existing paths), and as soon as one supplied path exists, processing runs to
completion producing the chart and summary. -/
theorem missing_files_skipped (fs : FileSystem) (args : List String) :
    (scanFiles fs args).1 = args.filter (fun p => (fs p).isNone) ∧
    (scanFiles fs args).2 = args.filterMap (fun p => (fs p).map (mkResult p)) ∧
    ((∃ p ∈ args, (fs p).isSome) →
      main fs args = Outcome.success (sortResults (scanFiles fs args).2)) := by
  refine ⟨scanFiles_fst fs args, scanFiles_snd fs args, ?_⟩
  rintro ⟨p, hp, hsome⟩
  have hargs : args ≠ [] := by
    intro h; subst h; exact absurd hp (List.not_mem_nil p)
  have hres : (scanFiles fs args).2 ≠ [] := by
    intro h
    have := (results_eq_nil_iff fs args).mp h p hp
    rw [this] at hsome
    simp at hsome
  have hlen : ¬ args.length < 1 := by
    cases args with
    | nil => exact absurd rfl hargs
    | cons a t => simp
  simp [main, hlen, plot_response_time_comparison, hres]

/-- Witness for C5 at a concrete input: one missing path plus one existing
path still reaches the chart-and-summary outcome. -/
theorem missing_files_skipped_witness :
    main (fun p => if p = "a_results_1.csv" then some [(⟨1, 1⟩ : Row)] else none)
        ["missing.csv", "a_results_1.csv"] =
      Outcome.success (sortResults
        (scanFiles
          (fun p => if p = "a_results_1.csv" then some [(⟨1, 1⟩ : Row)] else none)
          ["missing.csv", "a_results_1.csv"]).2) :=
  (missing_files_skipped _ _).2.2 ⟨"a_results_1.csv", by decide, by decide⟩

theorem mem_unique_durations {df : List Row} {d : ℚ} :
    d ∈ unique_durations df ↔ d ∈ df.map (fun r => r.duration_ms) := by
  unfold unique_durations
  rw [List.mem_insertionSort]
  exact List.mem_dedup

theorem sorted_unique_durations (df : List Row) :
    (unique_durations df).Sorted (fun a b : ℚ => a ≤ b) :=
  List.sorted_insertionSort _ _

theorem nodup_unique_durations (df : List Row) :
    (unique_durations df).Nodup :=
  ((List.perm_insertionSort _ _).nodup_iff).mpr (List.nodup_dedup _)

theorem sorted_getD_zero_le {l : List ℚ} (hs : l.Sorted (fun a b : ℚ => a ≤ b))
    {x : ℚ} (hx : x ∈ l) : l.getD 0 0 ≤ x := by
  cases l with
  | nil => cases hx
  | cons a t =>
    rcases List.mem_cons.mp hx with rfl | hxt
    · simp
    · simpa using (List.sorted_cons.mp hs).1 x hxt

theorem le_sorted_getLastD {l : List ℚ} (hs : l.Sorted (fun a b : ℚ => a ≤ b))
    {x : ℚ} (hx : x ∈ l) : ∀ d, x ≤ l.getLastD d := by
  induction l with
  | nil => cases hx
  | cons a t ih =>
    intro d
    have hs' := List.sorted_cons.mp hs
    cases t with
    | nil =>
      rcases List.mem_cons.mp hx with rfl | h
      · simp
      · cases h
    | cons b u =>
      rw [List.getLastD_cons]
      rcases List.mem_cons.mp hx with rfl | hxt
      · have hmem : (b :: u).getLastD x ∈ b :: u := by
          simp [List.getLastD_eq_getLast?, List.getLast?_eq_getLast (b :: u) (by simp)]
        exact hs'.1 _ hmem
      · exact ih hs'.2 hxt a

theorem getD_zero_mem {l : List ℚ} (h : l ≠ []) : l.getD 0 0 ∈ l := by
  cases l with
  | nil => exact absurd rfl h
  | cons a t => simp

/-- C10: an existing file with zero data rows still yields a result entry
whose `all` statistics are the not-a-number values of the empty series
(modelled `none`) and are printed unconditionally, while `short` and `long`
are both absent. -/
theorem empty_file_result (csv_file : String) :
    (mkResult csv_file []).all = ⟨none, none, none⟩ ∧
    (mkResult csv_file []).short = none ∧
    (mkResult csv_file []).long = none ∧
    summaryCellAll (mkResult csv_file []) Percentiles.median = Cell.value none ∧
    summaryCellAll (mkResult csv_file []) Percentiles.p90 = Cell.value none ∧
    summaryCellAll (mkResult csv_file []) Percentiles.p99 = Cell.value none :=
  ⟨rfl, rfl, rfl, rfl, rfl, rfl⟩

/-- Witness for C10 at a concrete filename. -/
theorem empty_file_result_witness :
    (mkResult "t.csv" []).short = none ∧ (mkResult "t.csv" []).all.median = none :=
  ⟨(empty_file_result "t.csv").2.1, by
    rw [(empty_file_result "t.csv").1]⟩

theorem identify_eq_of_two_le {df : List Row}
    (h2 : 2 ≤ (unique_durations df).length) :
    identify_task_types df =
      (some (df.filter
          (fun r => decide (r.duration_ms = (unique_durations df).getD 0 0))),
       some (df.filter
          (fun r => decide (r.duration_ms = (unique_durations df).getLastD 0)))) := by
  simp only [identify_task_types]
  rw [if_pos h2]

theorem identify_eq_of_one {df : List Row}
    (h1 : (unique_durations df).length = 1) :
    identify_task_types df =
      (some (df.filter
          (fun r => decide (r.duration_ms = (unique_durations df).getD 0 0))),
       some []) := by
  simp only [identify_task_types]
  rw [if_neg (by omega), if_pos h1]

theorem identify_eq_of_zero {df : List Row}
    (h0 : (unique_durations df).length = 0) :
    identify_task_types df = (none, none) := by
  simp only [identify_task_types]
  rw [if_neg (by omega), if_neg (by omega)]

theorem mkResult_short (csv_file : String) (df : List Row) :
    (mkResult csv_file df).short =
      match (identify_task_types df).1 with
      | some st =>
          if 0 < st.length then
            some (calculate_percentiles (st.map (fun r => r.response_time_ms)))
          else none
      | none => none := rfl

theorem mkResult_long (csv_file : String) (df : List Row) :
    (mkResult csv_file df).long =
      match (identify_task_types df).2 with
      | some lt' =>
          if 0 < lt'.length then
            some (calculate_percentiles (lt'.map (fun r => r.response_time_ms)))
          else none
      | none => none := rfl

theorem minFilter_nonempty {df : List Row} (h : df ≠ []) :
    0 < (df.filter
      (fun r => decide (r.duration_ms = (unique_durations df).getD 0 0))).length := by
  have hud : unique_durations df ≠ [] := by
    intro hnil
    cases df with
    | nil => exact absurd rfl h
    | cons r t =>
      have hmem : r.duration_ms ∈ unique_durations (r :: t) :=
        mem_unique_durations.mpr (by simp)
      rw [hnil] at hmem
      cases hmem
  have hm_ud : (unique_durations df).getD 0 0 ∈ unique_durations df :=
    getD_zero_mem hud
  have hm_df : ∃ row ∈ df,
      row.duration_ms = (unique_durations df).getD 0 0 := by
    have := mem_unique_durations.mp hm_ud
    simpa [List.mem_map, eq_comm] using this
  obtain ⟨row, hrow, hdur⟩ := hm_df
  have hfilter : row ∈ df.filter
      (fun r => decide (r.duration_ms = (unique_durations df).getD 0 0)) :=
    List.mem_filter.mpr ⟨hrow, by simp [hdur]⟩
  cases hfe : df.filter
      (fun r => decide (r.duration_ms = (unique_durations df).getD 0 0)) with
  | nil => rw [hfe] at hfilter; cases hfilter
  | cons a t => simp

theorem unique_durations_ne_nil {df : List Row} (h : df ≠ []) :
    unique_durations df ≠ [] := by
  intro hnil
  cases df with
  | nil => exact absurd rfl h
  | cons r t =>
    have hmem : r.duration_ms ∈ unique_durations (r :: t) :=
      mem_unique_durations.mpr (by simp)
    rw [hnil] at hmem
    cases hmem

/-- C9: for a non-empty file the short statistics are always present (the
rows at the minimum distinct duration always exist), so of the three
statistic sets only `long` can ever be absent. -/
theorem short_stats_present (csv_file : String) (df : List Row) (h : df ≠ []) :
    ((mkResult csv_file df).short).isSome = true := by
  have hlen := minFilter_nonempty h
  have hshort : (mkResult csv_file df).short =
      some (calculate_percentiles ((df.filter
        (fun r => decide (r.duration_ms = (unique_durations df).getD 0 0))).map
          (fun r => r.response_time_ms))) := by
    rw [mkResult_short]
    rcases Nat.lt_or_ge (unique_durations df).length 2 with hlt | h2
    · have h0 : (unique_durations df).length ≠ 0 := by
        simpa [List.length_eq_zero] using unique_durations_ne_nil h
      have h1 : (unique_durations df).length = 1 := by omega
      rw [identify_eq_of_one h1]
      exact if_pos hlen
    · rw [identify_eq_of_two_le h2]
      exact if_pos hlen
  rw [hshort]
  rfl

/-- Witness for C9 at a concrete one-row file. -/
theorem short_stats_present_witness :
    ((mkResult "t.csv" [(⟨1, 2⟩ : Row)]).short).isSome = true :=
  short_stats_present "t.csv" [(⟨1, 2⟩ : Row)] (by decide)

/-- C6: statistics of an empty (or undefined) short or long subset are stored
as absent, shown as `N/A` in the summary table, and replaced by 0 only at
chart-drawing time; a present statistics set is printed and charted as is. -/
theorem absent_stats_reporting (csv_file : String) (df : List Row) :
    ((mkResult csv_file df).short = none ↔
      ((identify_task_types df).1.getD []).length = 0) ∧
    ((mkResult csv_file df).long = none ↔
      ((identify_task_types df).2.getD []).length = 0) ∧
    ((mkResult csv_file df).short = none →
      (∀ f, summaryCell (mkResult csv_file df).short f = Cell.na ∧
        chartValue (mkResult csv_file df).short f = some 0)) ∧
    ((mkResult csv_file df).long = none →
      (∀ f, summaryCell (mkResult csv_file df).long f = Cell.na ∧
        chartValue (mkResult csv_file df).long f = some 0)) ∧
    (∀ st, (mkResult csv_file df).short = some st →
      (∀ f, summaryCell (mkResult csv_file df).short f = Cell.value (f st) ∧
        chartValue (mkResult csv_file df).short f = f st)) ∧
    (∀ st, (mkResult csv_file df).long = some st →
      (∀ f, summaryCell (mkResult csv_file df).long f = Cell.value (f st) ∧
        chartValue (mkResult csv_file df).long f = f st)) := by
  refine ⟨?_, ?_, ?_, ?_, ?_, ?_⟩
  · rw [mkResult_short]
    cases htt : (identify_task_types df).1 with
    | none => simp [htt]
    | some st =>
      by_cases hlen : 0 < st.length
      · simp [hlen]
        exact List.length_pos.mp hlen
      · simp [hlen]
        exact List.length_eq_zero.mp (Nat.eq_zero_of_not_pos hlen)
  · rw [mkResult_long]
    cases htt : (identify_task_types df).2 with
    | none => simp [htt]
    | some lt' =>
      by_cases hlen : 0 < lt'.length
      · simp [hlen]
        exact List.length_pos.mp hlen
      · simp [hlen]
        exact List.length_eq_zero.mp (Nat.eq_zero_of_not_pos hlen)
  · intro h f; rw [h]; exact ⟨rfl, rfl⟩
  · intro h f; rw [h]; exact ⟨rfl, rfl⟩
  · intro st h f; rw [h]; exact ⟨rfl, rfl⟩
  · intro st h f; rw [h]; exact ⟨rfl, rfl⟩

/-- Witness for C6 at a concrete single-duration file, whose long subset is
empty: the long statistics are stored absent, printed `N/A`, charted 0. -/
theorem absent_stats_reporting_witness :
    (mkResult "t.csv" [(⟨1, 5⟩ : Row)]).long = none ∧
    summaryCell (mkResult "t.csv" [(⟨1, 5⟩ : Row)]).long Percentiles.median = Cell.na ∧
    chartValue (mkResult "t.csv" [(⟨1, 5⟩ : Row)]).long Percentiles.median = some 0 := by
  have h := absent_stats_reporting "t.csv" [(⟨1, 5⟩ : Row)]
  have hlong : (mkResult "t.csv" [(⟨1, 5⟩ : Row)]).long = none := by decide
  exact ⟨hlong, (h.2.2.2.1 hlong Percentiles.median).1,
    (h.2.2.2.1 hlong Percentiles.median).2⟩

theorem getLastD_mem {l : List ℚ} (h : l ≠ []) (d : ℚ) : l.getLastD d ∈ l := by
  cases l with
  | nil => exact absurd rfl h
  | cons a t =>
    simp [List.getLastD_eq_getLast?, List.getLast?_eq_getLast (a :: t) (by simp)]

theorem unique_durations_length (df : List Row) :
    (unique_durations df).length = ((df.map (fun r => r.duration_ms)).dedup).length :=
  (List.perm_insertionSort _ _).length_eq

theorem min_ne_max {l : List ℚ} (hn : l.Nodup) (h2 : 2 ≤ l.length) :
    l.getD 0 0 ≠ l.getLastD 0 := by
  cases l with
  | nil => simp at h2
  | cons a t =>
    cases t with
    | nil => simp at h2
    | cons b u =>
      intro heq
      have hmem : (b :: u).getLastD a ∈ b :: u := getLastD_mem (by simp) a
      have hnin : a ∉ b :: u := (List.nodup_cons.mp hn).1
      rw [List.getD_cons_zero, List.getLastD_cons] at heq
      exact hnin (heq ▸ hmem)

theorem duration_mem_ud {df : List Row} {row : Row} (h : row ∈ df) :
    row.duration_ms ∈ unique_durations df :=
  mem_unique_durations.mpr (List.mem_map.mpr ⟨row, h, rfl⟩)

theorem exists_row_of_mem_ud {df : List Row} {d : ℚ}
    (h : d ∈ unique_durations df) : ∃ row ∈ df, row.duration_ms = d := by
  have := mem_unique_durations.mp h
  simpa [List.mem_map] using this

/-- C2: with exactly one distinct `duration_ms` value the long statistics are
absent (not duplicated from short); with two or more distinct values the
short subset is exactly the rows of minimum duration, the long subset exactly
the rows of maximum duration, the two subsets are disjoint, and rows of
intermediate duration belong to neither. -/
theorem task_split_correct (csv_file : String) (df : List Row) :
    (((df.map (fun r => r.duration_ms)).dedup).length = 1 →
      (mkResult csv_file df).long = none) ∧
    (2 ≤ ((df.map (fun r => r.duration_ms)).dedup).length →
      ∃ s l, identify_task_types df = (some s, some l) ∧
        (∀ row, row ∈ s ↔ row ∈ df ∧
          (∀ r' ∈ df, row.duration_ms ≤ r'.duration_ms)) ∧
        (∀ row, row ∈ l ↔ row ∈ df ∧
          (∀ r' ∈ df, r'.duration_ms ≤ row.duration_ms)) ∧
        (∀ row, ¬(row ∈ s ∧ row ∈ l)) ∧
        (∀ row ∈ df, (∃ a ∈ df, a.duration_ms < row.duration_ms) →
          (∃ b ∈ df, row.duration_ms < b.duration_ms) →
          row ∉ s ∧ row ∉ l)) := by
  constructor
  · intro h1
    have h1' : (unique_durations df).length = 1 := by
      rw [unique_durations_length]; exact h1
    rw [mkResult_long, identify_eq_of_one h1']
    rfl
  · intro h2
    have h2' : 2 ≤ (unique_durations df).length := by
      rw [unique_durations_length]; exact h2
    have hud : unique_durations df ≠ [] := by
      intro hnil; rw [hnil] at h2'; simp at h2'
    have hsorted := sorted_unique_durations df
    have hnodup := nodup_unique_durations df
    have hmin_le : ∀ x ∈ unique_durations df, (unique_durations df).getD 0 0 ≤ x :=
      fun x hx => sorted_getD_zero_le hsorted hx
    have hle_max : ∀ x ∈ unique_durations df, x ≤ (unique_durations df).getLastD 0 :=
      fun x hx => le_sorted_getLastD hsorted hx 0
    obtain ⟨rmin, hrmin, hrmin_eq⟩ := exists_row_of_mem_ud (getD_zero_mem hud)
    obtain ⟨rmax, hrmax, hrmax_eq⟩ := exists_row_of_mem_ud (getLastD_mem hud 0)
    have hschar : ∀ row, row ∈ df.filter
        (fun r => decide (r.duration_ms = (unique_durations df).getD 0 0)) ↔
        row ∈ df ∧ (∀ r' ∈ df, row.duration_ms ≤ r'.duration_ms) := by
      intro row
      rw [List.mem_filter]
      constructor
      · rintro ⟨hdf, hdec⟩
        have hd : row.duration_ms = (unique_durations df).getD 0 0 := by
          simpa using hdec
        exact ⟨hdf, fun r' hr' => hd ▸ hmin_le _ (duration_mem_ud hr')⟩
      · rintro ⟨hdf, hleast⟩
        refine ⟨hdf, ?_⟩
        have h₁ : row.duration_ms ≤ (unique_durations df).getD 0 0 :=
          hrmin_eq ▸ hleast rmin hrmin
        have h₂ : (unique_durations df).getD 0 0 ≤ row.duration_ms :=
          hmin_le _ (duration_mem_ud hdf)
        simp [le_antisymm h₁ h₂]
    have hlchar : ∀ row, row ∈ df.filter
        (fun r => decide (r.duration_ms = (unique_durations df).getLastD 0)) ↔
        row ∈ df ∧ (∀ r' ∈ df, r'.duration_ms ≤ row.duration_ms) := by
      intro row
      rw [List.mem_filter]
      constructor
      · rintro ⟨hdf, hdec⟩
        have hd : row.duration_ms = (unique_durations df).getLastD 0 := by
          simpa using hdec
        exact ⟨hdf, fun r' hr' => hd ▸ hle_max _ (duration_mem_ud hr')⟩
      · rintro ⟨hdf, hgreat⟩
        refine ⟨hdf, ?_⟩
        have h₁ : (unique_durations df).getLastD 0 ≤ row.duration_ms :=
          hrmax_eq ▸ hgreat rmax hrmax
        have h₂ : row.duration_ms ≤ (unique_durations df).getLastD 0 :=
          hle_max _ (duration_mem_ud hdf)
        simp [le_antisymm h₂ h₁]
    refine ⟨_, _, identify_eq_of_two_le h2', hschar, hlchar, ?_, ?_⟩
    · rintro row ⟨hs, hl⟩
      have hds : row.duration_ms = (unique_durations df).getD 0 0 := by
        have := (List.mem_filter.mp hs).2; simpa using this
      have hdl : row.duration_ms = (unique_durations df).getLastD 0 := by
        have := (List.mem_filter.mp hl).2; simpa using this
      exact min_ne_max hnodup h2' (hds ▸ hdl)
    · rintro row hrow ⟨a, ha, halt⟩ ⟨b, hb, hblt⟩
      constructor
      · intro hs
        have := ((hschar row).mp hs).2 a ha
        exact absurd halt (not_lt.mpr this)
      · intro hl
        have := ((hlchar row).mp hl).2 b hb
        exact absurd hblt (not_lt.mpr this)

/-- Witness for C2: a three-row file with two distinct durations has a
well-formed short/long split, and a single-duration file has absent long
statistics. -/
theorem task_split_correct_witness :
    ((identify_task_types [(⟨1, 5⟩ : Row), ⟨2, 7⟩, ⟨3, 5⟩]).1).isSome = true ∧
    (mkResult "t.csv" [(⟨1, 5⟩ : Row)]).long = none := by
  constructor
  · obtain ⟨s, l, heq, -⟩ :=
      (task_split_correct "t.csv" [(⟨1, 5⟩ : Row), ⟨2, 7⟩, ⟨3, 5⟩]).2 (by decide)
    rw [heq]
    rfl
  · exact (task_split_correct "t.csv" [(⟨1, 5⟩ : Row)]).1 (by decide)

theorem lexLe_total (a b : List Char) : lexLe a b = true ∨ lexLe b a = true := by
  induction a generalizing b with
  | nil => left; rfl
  | cons x xs ih =>
    cases b with
    | nil => right; rfl
    | cons y ys =>
      by_cases hxy : x = y
      · subst hxy
        rcases ih ys with h | h
        · left; simpa [lexLe] using h
        · right; simpa [lexLe] using h
      · rcases lt_or_gt_of_ne hxy with hlt | hgt
        · left; simp [lexLe, hxy, hlt]
        · right; simp [lexLe, Ne.symm hxy, hgt]

theorem lexLe_trans : ∀ {a b c : List Char},
    lexLe a b = true → lexLe b c = true → lexLe a c = true := by
  intro a
  induction a with
  | nil => intro b c _ _; rfl
  | cons x xs ih =>
    intro b c h₁ h₂
    cases b with
    | nil => simp [lexLe] at h₁
    | cons y ys =>
      cases c with
      | nil => simp [lexLe] at h₂
      | cons z zs =>
        by_cases hxy : x = y <;> by_cases hyz : y = z
        · subst hxy; subst hyz
          simp only [lexLe, if_pos rfl] at h₁ h₂ ⊢
          exact ih h₁ h₂
        · subst hxy
          have hlt : x < z := by
            simpa [lexLe, hyz] using h₂
          simp [lexLe, ne_of_lt hlt, hlt]
        · subst hyz
          have hlt : x < y := by
            simpa [lexLe, hxy] using h₁
          simp [lexLe, hxy, hlt]
        · have hlt₁ : x < y := by
            simpa [lexLe, hxy] using h₁
          have hlt₂ : y < z := by
            simpa [lexLe, hyz] using h₂
          have hlt : x < z := lt_trans hlt₁ hlt₂
          simp [lexLe, ne_of_lt hlt, hlt]

theorem sorted_sortResults (rs : List AlgoResult) :
    (sortResults rs).Sorted algoLe :=
  @List.sorted_insertionSort AlgoResult algoLe inferInstance
    ⟨fun a b => lexLe_total a.algorithm.data b.algorithm.data⟩
    ⟨fun _ _ _ => lexLe_trans⟩ rs

/-- C7 (amended): before rendering and summary printing the results are
sorted ascending by derived algorithm name under case-sensitive
lexicographic (code-point) string order — the order Python's `sorted` uses —
and the chart's bar groups and the console summary follow that same order.
(The order is case-insensitive only when every label is upper-cased by the
pattern match; fallback raw stems sort case-sensitively, see the
counterexample.) -/
theorem results_sorted_by_name (fs : FileSystem) (args : List String) :
    (sortResults (scanFiles fs args).2).Perm (scanFiles fs args).2 ∧
    List.Sorted (fun a b : String => lexLe a.data b.data = true)
      (algorithms (sortResults (scanFiles fs args).2)) ∧
    summaryOrder (sortResults (scanFiles fs args).2) =
      algorithms (sortResults (scanFiles fs args).2) := by
  refine ⟨List.perm_insertionSort _ _, ?_, rfl⟩
  have hsorted : (sortResults (scanFiles fs args).2).Sorted algoLe :=
    sorted_sortResults _
  unfold algorithms
  exact List.pairwise_map.mpr hsorted

/-- Witness for C7 at a concrete single-file input. -/
theorem results_sorted_by_name_witness :
    List.Sorted (fun a b : String => lexLe a.data b.data = true)
      (algorithms (sortResults (scanFiles
        (fun p => if p = "a_results_1.csv" then some [(⟨1, 1⟩ : Row)] else none)
        ["a_results_1.csv"]).2)) :=
  (results_sorted_by_name
    (fun p => if p = "a_results_1.csv" then some [(⟨1, 1⟩ : Row)] else none)
    ["a_results_1.csv"]).2.1

/-- C7 counterexample: with one pattern-matched name `B` and one fallback raw
stem `apple`, the pipeline's display order is `[B, apple]`, which is not
sorted in case-insensitive alphabetical order (`apple` < `b`
case-insensitively). -/
theorem sort_case_insensitive_counterexample :
    algorithms (sortResults (scanFiles
      (fun p => if p = "apple.csv" ∨ p = "b_results_1.csv"
        then some [(⟨1, 1⟩ : Row)] else none)
      ["apple.csv", "b_results_1.csv"]).2) = ["B", "apple"] ∧
    ¬ List.Sorted (fun a b : String => lexLe (ciKey a) (ciKey b) = true)
      (algorithms (sortResults (scanFiles
        (fun p => if p = "apple.csv" ∨ p = "b_results_1.csv"
          then some [(⟨1, 1⟩ : Row)] else none)
        ["apple.csv", "b_results_1.csv"]).2)) := by
  have heq : algorithms (sortResults (scanFiles
      (fun p => if p = "apple.csv" ∨ p = "b_results_1.csv"
        then some [(⟨1, 1⟩ : Row)] else none)
      ["apple.csv", "b_results_1.csv"]).2) = ["B", "apple"] := by decide
  refine ⟨heq, ?_⟩
  intro h
  rw [heq] at h
  have h01 : lexLe (ciKey "B") (ciKey "apple") = true :=
    (List.pairwise_cons.mp h).1 "apple" (by simp)
  exact absurd h01 (by decide)

/-- C8 (spec-modelled: the basic mean-variant script is not under `src/`):
the basic variant selects the algorithm of minimum mean response time as best
and of maximum mean as worst, and prints the percentage reduction from worst
to best. -/
theorem best_worst_mean (rs : List MeanResult) (h : rs ≠ []) :
    ∃ b w, best_algorithm rs = some b ∧ worst_algorithm rs = some w ∧
      b ∈ rs ∧ w ∈ rs ∧
      (∀ r ∈ rs, b.meanRt ≤ r.meanRt) ∧ (∀ r ∈ rs, r.meanRt ≤ w.meanRt) ∧
      improvementPct b.meanRt w.meanRt =
        (w.meanRt - b.meanRt) / w.meanRt * 100 := by
  cases hb : best_algorithm rs with
  | none =>
    exact absurd (List.argmin_eq_none.mp hb) h
  | some b =>
    cases hw : worst_algorithm rs with
    | none =>
      exact absurd (List.argmax_eq_none.mp hw) h
    | some w =>
      have hbm : b ∈ rs.argmin (fun r => r.meanRt) := hb
      have hwm : w ∈ rs.argmax (fun r => r.meanRt) := hw
      exact ⟨b, w, rfl, rfl, List.argmin_mem hbm, List.argmax_mem hwm,
        fun r hr => List.le_of_mem_argmin hr hbm,
        fun r hr => List.le_of_mem_argmax hr hwm, rfl⟩

/-- Witness for C8: the spec's two-file scenario (`sjf` mean 15, `fifo`
mean 25) yields best `SJF`, worst `FIFO`, and a 40 percent improvement. -/
theorem best_worst_mean_witness :
    best_algorithm sjfFifoScenario = some ⟨"SJF", 15⟩ ∧
    worst_algorithm sjfFifoScenario = some ⟨"FIFO", 25⟩ ∧
    improvementPct 15 25 = 40 ∧
    (∃ b w, best_algorithm sjfFifoScenario = some b ∧
      worst_algorithm sjfFifoScenario = some w ∧ b ∈ sjfFifoScenario ∧
      w ∈ sjfFifoScenario ∧ (∀ r ∈ sjfFifoScenario, b.meanRt ≤ r.meanRt) ∧
      (∀ r ∈ sjfFifoScenario, r.meanRt ≤ w.meanRt) ∧
      improvementPct b.meanRt w.meanRt =
        (w.meanRt - b.meanRt) / w.meanRt * 100) :=
  ⟨by decide, by decide, by decide, best_worst_mean sjfFifoScenario (by decide)⟩

theorem takeWhile_append_cons {p : Char → Bool} (l1 : List Char) (c : Char)
    (l2 : List Char) (h1 : ∀ x ∈ l1, p x = true) (hc : p c = false) :
    (l1 ++ c :: l2).takeWhile p = l1 := by
  induction l1 with
  | nil => simp [List.takeWhile_cons, hc]
  | cons x xs ih =>
    have hx := h1 x (by simp)
    simp [List.takeWhile_cons, hx, ih (fun y hy => h1 y (by simp [hy]))]

theorem pre_eq_takeWhile {filename : String} {pre suf : List Char}
    (heq : (pathStem filename).data = pre ++ ("_results_".data ++ suf))
    (hnin : '_' ∉ pre) :
    (pathStem filename).data.takeWhile (fun c => c ≠ '_') = pre := by
  have hp : ∀ x ∈ pre, (fun c => decide (c ≠ '_')) x = true := by
    intro x hx
    simp only [decide_eq_true_eq]
    exact fun hxe => hnin (hxe ▸ hx)
  rw [heq]
  exact takeWhile_append_cons pre '_' ("results_".data ++ suf) hp (by simp)

theorem extract_match_iff (filename : String) :
    ((pathStem filename).data.takeWhile (fun c => c ≠ '_') ≠ [] ∧
      List.isPrefixOf "_results_".data
        ((pathStem filename).data.drop
          ((pathStem filename).data.takeWhile (fun c => c ≠ '_')).length)) ↔
    ∃ pre suf : List Char,
      (pathStem filename).data = pre ++ ("_results_".data ++ suf) ∧
      pre ≠ [] ∧ '_' ∉ pre := by
  constructor
  · rintro ⟨hne, hpref⟩
    obtain ⟨suf, hsuf⟩ := List.isPrefixOf_iff_prefix.mp hpref
    refine ⟨(pathStem filename).data.takeWhile (fun c => c ≠ '_'), suf, ?_, hne, ?_⟩
    · have hpfx : (pathStem filename).data.takeWhile (fun c => c ≠ '_') <+:
          (pathStem filename).data := List.takeWhile_prefix _
      have htake_eq : (pathStem filename).data.take
          ((pathStem filename).data.takeWhile (fun c => c ≠ '_')).length =
          (pathStem filename).data.takeWhile (fun c => c ≠ '_') := by
        have h2 := List.prefix_iff_eq_take.mp hpfx
        exact h2.symm
      conv_lhs => rw [← List.take_append_drop
        ((pathStem filename).data.takeWhile (fun c => c ≠ '_')).length
        (pathStem filename).data]
      rw [htake_eq, hsuf]
    · intro hin
      have := List.mem_takeWhile_imp hin
      simp at this
  · rintro ⟨pre, suf, heq, hne, hnin⟩
    have htake : (pathStem filename).data.takeWhile (fun c => c ≠ '_') = pre :=
      pre_eq_takeWhile heq hnin
    have hdrop : (pathStem filename).data.drop
        ((pathStem filename).data.takeWhile (fun c => c ≠ '_')).length =
        "_results_".data ++ suf := by
      rw [htake, heq]
      exact List.drop_left pre _
    refine ⟨by rw [htake]; exact hne, ?_⟩
    rw [hdrop]
    exact List.isPrefixOf_iff_prefix.mpr ⟨suf, rfl⟩

/-- C1 (amended): the derived label is the upper-cased prefix exactly when
the stem decomposes as `<prefix>_results_<anything>` with a non-empty prefix
containing no underscore (that prefix is then the run of characters before
the first underscore); in every other case — including a prefix before the
first `_results_` that itself contains an underscore — the label is the raw
stem. -/
theorem algo_name_characterization (filename : String) :
    (∃ pre suf : List Char,
      (pathStem filename).data = pre ++ ("_results_".data ++ suf) ∧
      pre ≠ [] ∧ '_' ∉ pre ∧
      extract_algorithm_name filename = String.mk (pre.map Char.toUpper)) ∨
    ((¬ ∃ pre suf : List Char,
        (pathStem filename).data = pre ++ ("_results_".data ++ suf) ∧
        pre ≠ [] ∧ '_' ∉ pre) ∧
      extract_algorithm_name filename = pathStem filename) := by
  by_cases hc : (pathStem filename).data.takeWhile (fun c => c ≠ '_') ≠ [] ∧
      List.isPrefixOf "_results_".data
        ((pathStem filename).data.drop
          ((pathStem filename).data.takeWhile (fun c => c ≠ '_')).length)
  · left
    obtain ⟨pre, suf, heq, hne, hnin⟩ := (extract_match_iff filename).mp hc
    have hpre : (pathStem filename).data.takeWhile (fun c => c ≠ '_') = pre :=
      pre_eq_takeWhile heq hnin
    refine ⟨pre, suf, heq, hne, hnin, ?_⟩
    show (if (pathStem filename).data.takeWhile (fun c => c ≠ '_') ≠ [] ∧
        List.isPrefixOf "_results_".data
          ((pathStem filename).data.drop
            ((pathStem filename).data.takeWhile (fun c => c ≠ '_')).length) then
        String.mk (((pathStem filename).data.takeWhile
          (fun c => c ≠ '_')).map Char.toUpper)
      else pathStem filename) = String.mk (pre.map Char.toUpper)
    rw [if_pos hc, hpre]
  · right
    constructor
    · intro hex
      exact hc ((extract_match_iff filename).mpr hex)
    · show (if (pathStem filename).data.takeWhile (fun c => c ≠ '_') ≠ [] ∧
          List.isPrefixOf "_results_".data
            ((pathStem filename).data.drop
              ((pathStem filename).data.takeWhile (fun c => c ≠ '_')).length) then
          String.mk (((pathStem filename).data.takeWhile
            (fun c => c ≠ '_')).map Char.toUpper)
        else pathStem filename) = pathStem filename
      rw [if_neg hc]

/-- Witness for C1 at a concrete matching filename. -/
theorem algo_name_characterization_witness :
    ((∃ pre suf : List Char,
      (pathStem "fifo_results_20240101.csv").data = pre ++ ("_results_".data ++ suf) ∧
      pre ≠ [] ∧ '_' ∉ pre ∧
      extract_algorithm_name "fifo_results_20240101.csv" =
        String.mk (pre.map Char.toUpper)) ∨
    ((¬ ∃ pre suf : List Char,
        (pathStem "fifo_results_20240101.csv").data = pre ++ ("_results_".data ++ suf) ∧
        pre ≠ [] ∧ '_' ∉ pre) ∧
      extract_algorithm_name "fifo_results_20240101.csv" =
        pathStem "fifo_results_20240101.csv")) ∧
    extract_algorithm_name "fifo_results_20240101.csv" = "FIFO" :=
  ⟨algo_name_characterization "fifo_results_20240101.csv", by decide⟩

/-- C1 counterexample: for the stem `x_y_results_1`, whose prefix before the
first `_results_` token contains an underscore, the claimed label would be
`X_Y`, but the code's regex `^([^_]+)_results_` does not match and the raw
stem is returned. -/
theorem algo_name_counterexample :
    extract_algorithm_name "x_y_results_1.csv" = "x_y_results_1" ∧
    claimedLabel "x_y_results_1.csv" = "X_Y" ∧
    extract_algorithm_name "x_y_results_1.csv" ≠
      claimedLabel "x_y_results_1.csv" :=
  ⟨by decide, by decide, by decide⟩

theorem sorted_getD_le {s : List ℚ} (hs : s.Sorted (fun a b : ℚ => a ≤ b))
    {i j : ℕ} (hij : i ≤ j) (hj : j < s.length) (d e : ℚ) :
    s.getD i d ≤ s.getD j e := by
  have hi : i < s.length := lt_of_le_of_lt hij hj
  rw [List.getD_eq_getElem s d hi, List.getD_eq_getElem s e hj]
  have h := hs.rel_get_of_le
    (show (⟨i, hi⟩ : Fin s.length) ≤ ⟨j, hj⟩ from Fin.mk_le_mk.mpr hij)
  simpa [List.get_eq_getElem] using h

theorem getD_succ_self_le {s : List ℚ} (hs : s.Sorted (fun a b : ℚ => a ≤ b))
    {i : ℕ} (hi : i < s.length) :
    s.getD i 0 ≤ s.getD (i + 1) (s.getD i 0) := by
  by_cases hv : i + 1 < s.length
  · exact sorted_getD_le hs (Nat.le_succ i) hv 0 _
  · rw [List.getD_eq_default s (s.getD i 0) (by omega : s.length ≤ i + 1)]

theorem quantileOfSorted_eq (s : List ℚ) (q : ℚ) :
    quantileOfSorted s q =
      s.getD (⌊((s.length : ℚ) - 1) * q⌋.toNat) 0 +
        (((s.length : ℚ) - 1) * q - (⌊((s.length : ℚ) - 1) * q⌋.toNat : ℚ)) *
          (s.getD (⌊((s.length : ℚ) - 1) * q⌋.toNat + 1)
            (s.getD (⌊((s.length : ℚ) - 1) * q⌋.toNat) 0) -
           s.getD (⌊((s.length : ℚ) - 1) * q⌋.toNat) 0) := rfl

theorem quantileOfSorted_mono {s : List ℚ}
    (hs : s.Sorted (fun a b : ℚ => a ≤ b)) (hne : s ≠ []) {q₁ q₂ : ℚ}
    (hq0 : 0 ≤ q₁) (hq12 : q₁ ≤ q₂) (hq1 : q₂ ≤ 1) :
    quantileOfSorted s q₁ ≤ quantileOfSorted s q₂ := by
  rw [quantileOfSorted_eq, quantileOfSorted_eq]
  have hn1 : 1 ≤ s.length := List.length_pos.mpr hne
  have hnn : (0 : ℚ) ≤ (s.length : ℚ) - 1 := by
    have h1 : (1 : ℚ) ≤ (s.length : ℚ) := by exact_mod_cast hn1
    linarith
  have h10 : 0 ≤ ((s.length : ℚ) - 1) * q₁ := mul_nonneg hnn hq0
  have h20 : 0 ≤ ((s.length : ℚ) - 1) * q₂ := mul_nonneg hnn (hq0.trans hq12)
  have h12 : ((s.length : ℚ) - 1) * q₁ ≤ ((s.length : ℚ) - 1) * q₂ :=
    mul_le_mul_of_nonneg_left hq12 hnn
  have h2top : ((s.length : ℚ) - 1) * q₂ ≤ (s.length : ℚ) - 1 := by nlinarith
  have hfl₁ : (0 : ℤ) ≤ ⌊((s.length : ℚ) - 1) * q₁⌋ := Int.floor_nonneg.mpr h10
  have hfl₂ : (0 : ℤ) ≤ ⌊((s.length : ℚ) - 1) * q₂⌋ := Int.floor_nonneg.mpr h20
  have hfl12 : ⌊((s.length : ℚ) - 1) * q₁⌋ ≤ ⌊((s.length : ℚ) - 1) * q₂⌋ :=
    Int.floor_le_floor h12
  have hfl2top : ⌊((s.length : ℚ) - 1) * q₂⌋ ≤ (s.length : ℤ) - 1 := by
    have hcast : ((s.length : ℚ) - 1) = (((s.length : ℤ) - 1 : ℤ) : ℚ) := by
      push_cast
      ring
    calc ⌊((s.length : ℚ) - 1) * q₂⌋ ≤ ⌊((s.length : ℚ) - 1)⌋ :=
          Int.floor_le_floor h2top
      _ = (s.length : ℤ) - 1 := by rw [hcast, Int.floor_intCast]
  set i₁ := ⌊((s.length : ℚ) - 1) * q₁⌋.toNat with hi₁def
  set i₂ := ⌊((s.length : ℚ) - 1) * q₂⌋.toNat with hi₂def
  have hii : i₁ ≤ i₂ := by omega
  have hi₂lt : i₂ < s.length := by omega
  have hi₁lt : i₁ < s.length := by omega
  have hci₁ : (i₁ : ℚ) = (⌊((s.length : ℚ) - 1) * q₁⌋ : ℚ) := by
    rw [hi₁def]
    exact_mod_cast congrArg (fun z : ℤ => (z : ℚ)) (Int.toNat_of_nonneg hfl₁)
  have hci₂ : (i₂ : ℚ) = (⌊((s.length : ℚ) - 1) * q₂⌋ : ℚ) := by
    rw [hi₂def]
    exact_mod_cast congrArg (fun z : ℤ => (z : ℚ)) (Int.toNat_of_nonneg hfl₂)
  have hg₁0 : 0 ≤ ((s.length : ℚ) - 1) * q₁ - (i₁ : ℚ) := by
    rw [hci₁]
    have := Int.floor_le (((s.length : ℚ) - 1) * q₁)
    linarith
  have hg₁1 : ((s.length : ℚ) - 1) * q₁ - (i₁ : ℚ) ≤ 1 := by
    rw [hci₁]
    have := Int.lt_floor_add_one (((s.length : ℚ) - 1) * q₁)
    push_cast at this
    linarith
  have hg₂0 : 0 ≤ ((s.length : ℚ) - 1) * q₂ - (i₂ : ℚ) := by
    rw [hci₂]
    have := Int.floor_le (((s.length : ℚ) - 1) * q₂)
    linarith
  rcases eq_or_lt_of_le hii with heq | hlt
  · rw [← heq]
    have hAA1 := getD_succ_self_le hs hi₁lt
    have hgg : ((s.length : ℚ) - 1) * q₁ - (i₁ : ℚ) ≤
        ((s.length : ℚ) - 1) * q₂ - (i₁ : ℚ) := by linarith
    nlinarith [mul_nonneg (by linarith :
        (0 : ℚ) ≤ (((s.length : ℚ) - 1) * q₂ - (i₁ : ℚ)) -
          (((s.length : ℚ) - 1) * q₁ - (i₁ : ℚ)))
      (sub_nonneg.mpr hAA1)]
  · have hv₁ : i₁ + 1 < s.length := by omega
    have hA : s.getD i₁ 0 ≤ s.getD (i₁ + 1) (s.getD i₁ 0) :=
      getD_succ_self_le hs hi₁lt
    have hstep₁ : s.getD i₁ 0 +
        (((s.length : ℚ) - 1) * q₁ - (i₁ : ℚ)) *
          (s.getD (i₁ + 1) (s.getD i₁ 0) - s.getD i₁ 0) ≤
        s.getD (i₁ + 1) (s.getD i₁ 0) := by
      nlinarith [mul_nonneg (by linarith :
          (0 : ℚ) ≤ 1 - (((s.length : ℚ) - 1) * q₁ - (i₁ : ℚ)))
        (sub_nonneg.mpr hA)]
    have hstep₂ : s.getD (i₁ + 1) (s.getD i₁ 0) ≤ s.getD i₂ 0 :=
      sorted_getD_le hs (by omega) hi₂lt _ 0
    have hB : s.getD i₂ 0 ≤ s.getD (i₂ + 1) (s.getD i₂ 0) :=
      getD_succ_self_le hs hi₂lt
    have hstep₃ : s.getD i₂ 0 ≤ s.getD i₂ 0 +
        (((s.length : ℚ) - 1) * q₂ - (i₂ : ℚ)) *
          (s.getD (i₂ + 1) (s.getD i₂ 0) - s.getD i₂ 0) := by
      nlinarith [mul_nonneg hg₂0 (sub_nonneg.mpr hB)]
    linarith

theorem sortedRats_sorted (xs : List ℚ) :
    (sortedRats xs).Sorted (fun a b : ℚ => a ≤ b) :=
  List.sorted_insertionSort _ _

theorem sortedRats_ne_nil {xs : List ℚ} (h : xs ≠ []) : sortedRats xs ≠ [] := by
  intro hnil
  have hlen : (sortedRats xs).length = xs.length :=
    List.length_insertionSort _ _
  rw [hnil] at hlen
  exact h (List.length_eq_zero.mp hlen.symm)

theorem seriesQuantile_mono {xs : List ℚ} (h : xs ≠ []) {q₁ q₂ : ℚ}
    (hq0 : 0 ≤ q₁) (hq12 : q₁ ≤ q₂) (hq1 : q₂ ≤ 1) :
    ∃ a b, seriesQuantile xs q₁ = some a ∧ seriesQuantile xs q₂ = some b ∧
      a ≤ b := by
  unfold seriesQuantile
  rw [if_neg h, if_neg h]
  exact ⟨_, _, rfl, rfl,
    quantileOfSorted_mono (sortedRats_sorted xs) (sortedRats_ne_nil h)
      hq0 hq12 hq1⟩

/-- C3: for every non-empty list of response-time values the computed
statistics (linear-interpolation quantiles) exist and satisfy
median ≤ p90 ≤ p99. -/
theorem percentile_order (xs : List ℚ) (h : xs ≠ []) :
    ∃ m p90 p99 : ℚ,
      (calculate_percentiles xs).median = some m ∧
      (calculate_percentiles xs).p90 = some p90 ∧
      (calculate_percentiles xs).p99 = some p99 ∧
      m ≤ p90 ∧ p90 ≤ p99 := by
  obtain ⟨a, b, ha, hb, hab⟩ :=
    seriesQuantile_mono h (by norm_num) (by norm_num : (1 : ℚ) / 2 ≤ 9 / 10)
      (by norm_num)
  obtain ⟨b', c, hb', hc, hbc⟩ :=
    seriesQuantile_mono h (by norm_num)
      (by norm_num : (9 : ℚ) / 10 ≤ 99 / 100) (by norm_num)
  have hbb : b = b' := by
    rw [hb] at hb'
    exact Option.some.inj hb'
  exact ⟨a, b, c, ha, hb, hc, hab, hbb ▸ hbc⟩

/-- Witness for C3 at a concrete three-value series. -/
theorem percentile_order_witness :
    (calculate_percentiles [10, 20, 30]).median = some 20 ∧
    ∃ m p90 p99 : ℚ,
      (calculate_percentiles [10, 20, 30]).median = some m ∧
      (calculate_percentiles [10, 20, 30]).p90 = some p90 ∧
      (calculate_percentiles [10, 20, 30]).p99 = some p99 ∧
      m ≤ p90 ∧ p90 ≤ p99 :=
  ⟨by decide, percentile_order [10, 20, 30] (by decide)⟩

example : extract_algorithm_name "fifo_results_20240101.csv" = "FIFO" := by decide
example : extract_algorithm_name "results/x_y_results_1.csv" = "x_y_results_1" := by decide
example : pathStem "a/b/c.txt" = "c" := by decide
example : seriesQuantile [30, 10, 20] (1 / 2) = some 20 := by decide
example : seriesQuantile [10, 20] (9 / 10) = some 19 := by decide
example : identify_task_types [⟨1, 5⟩, ⟨2, 7⟩, ⟨3, 5⟩] =
    (some [⟨1, 5⟩, ⟨3, 5⟩], some [⟨2, 7⟩]) := by decide

end PlotResults
